import Mathlib

set_option maxRecDepth 8000

/-!
Verification of the element-scraping core in `src/jsforbrowser.js`.

The script runs inside a browser over an already-rendered document. We model
the rendered DOM as a forest of nodes (`DomNode`): element nodes carry the
host-observable data the script reads (tag, attributes, resolved properties,
computed style, bounding rectangle), text nodes carry their character data.
A node is addressed by the list of child indices leading to it from the
document (`List Nat`), the first index selecting among the top-level children
of the document node.

Every function of the script is translated to a Lean function over this
model: `getXPathForElement`, `getAncestorContext`, the
`document.querySelectorAll` candidate enumeration, the per-element filter
and record assembly of the main `forEach`, and the final record list
`elementDetails`. JavaScript string primitives used by the script
(`toLowerCase`, `trim`, `replace(/\s+/g, " ")`, `||` on strings) are given
executable character-level models. Geometry is modelled with integers.
-/

/-! ### JavaScript string primitives -/

/-- JS `a || b` restricted to strings: the empty string is falsy. -/
def jsOr (a b : String) : String := if a = "" then b else a

/-- A nullable JS string (`null`/`undefined` map to `none`) read in a
falsy-tolerant position: `null` behaves like `""`. -/
def optStr (o : Option String) : String := o.getD ""

/-- ASCII whitespace, the class matched by the `\s` uses in the script on
the documents we model. -/
def isWsChar (c : Char) : Bool :=
  c = ' ' || c = '\t' || c = '\n' || c = '\r' || c = '\x0c'

/-- One pass of the JS replacement `replace(/\s+/g, " ")` over a character
list: every maximal whitespace run becomes one space.  The flag records
whether the previous character belonged to a whitespace run. -/
def collapseWsAux : Bool → List Char → List Char
  | _, [] => []
  | prevWs, c :: rest =>
    if isWsChar c then
      if prevWs then collapseWsAux true rest
      else ' ' :: collapseWsAux true rest
    else c :: collapseWsAux false rest

/-- JS `s.replace(/\s+/g, " ")`. -/
def collapseWs (s : String) : String := ⟨collapseWsAux false s.data⟩

/-- Drop leading whitespace from a character list. -/
def trimLeftChars : List Char → List Char
  | [] => []
  | c :: rest => if isWsChar c then trimLeftChars rest else c :: rest

/-- JS `s.trim()`: drop whitespace at both ends. -/
def strTrim (s : String) : String :=
  ⟨(trimLeftChars ((trimLeftChars s.data.reverse).reverse))⟩

/-- The whole normalization applied to `computedText` in the script:
`.replace(/\s+/g, " ").trim()`. -/
def normalizeWs (s : String) : String := strTrim (collapseWs s)

/-- JS `s.toLowerCase()` (character-wise, as used on ASCII tag names). -/
def lowerChars : List Char → List Char
  | [] => []
  | c :: rest => c.toLower :: lowerChars rest

/-- JS `s.toLowerCase()`. -/
def strLower (s : String) : String := ⟨lowerChars s.data⟩

/-- `Array.prototype.join("/")`, used for the XPath parts. -/
def joinSlash : List String → String
  | [] => ""
  | s :: rest => if rest.isEmpty then s else s ++ "/" ++ joinSlash rest

/-- The single-quote character, written via its code point. -/
def sQuote : String := String.singleton (Char.ofNat 39)

/-! ### The DOM model -/

/-- The host-observable data of one element node: attributes the script reads
with `getAttribute`, resolved DOM properties (`id`, `className`, `value`,
`type`, `disabled`, …; `none` models a property that is `undefined` on this
element kind), the computed style fields and the bounding rectangle consulted
by the visibility filter.  Tag names are stored as exposed by `nodeName`. -/
structure ElemInfo where
  tag : String
  id : String
  className : String
  role : Option String
  ariaLabel : Option String
  placeholder : Option String
  nameAttr : Option String
  href : Option String
  onclick : Option String
  forAttr : Option String
  ariaHidden : Option String
  valueProp : Option String
  typeProp : String
  disabled : Option Bool
  readOnly : Option Bool
  checked : Option Bool
  selected : Option Bool
  rectX : Int
  rectY : Int
  rectW : Int
  rectH : Int
  hasOffsetParent : Bool
  visibility : String
  display : String
deriving DecidableEq, Repr

mutual
/-- A rendered DOM node: an element with children, or a text node. -/
inductive DomNode where
  | text (s : String)
  | elem (info : ElemInfo) (children : DomForest)

/-- A sibling list of rendered DOM nodes (`childNodes`). -/
inductive DomForest where
  | nil
  | cons (hd : DomNode) (tl : DomForest)
end

/-- Build a forest from a list of nodes (used to write documents). -/
def DomForest.ofList : List DomNode → DomForest
  | [] => .nil
  | n :: rest => .cons n (DomForest.ofList rest)

/-- Element node with a plain list of children. -/
def el (info : ElemInfo) (cs : List DomNode) : DomNode :=
  .elem info (.ofList cs)

/-- Text node. -/
def tx (s : String) : DomNode := .text s

/-- The i-th node of a sibling list. -/
def DomForest.get? : DomForest → Nat → Option DomNode
  | .nil, _ => none
  | .cons hd _, 0 => some hd
  | .cons _ tl, i+1 => DomForest.get? tl i

/-- `node.childNodes` (empty for text nodes). -/
def childrenOf : DomNode → DomForest
  | .elem _ cs => cs
  | .text _ => .nil

/-- `node.nodeName`: the tag for elements, `"#text"` for text nodes. -/
def nodeNameOf : DomNode → String
  | .elem info _ => info.tag
  | .text _ => "#text"

/-- Look up the node addressed by a child-index path; the first index selects
among the top-level children `doc` of the document node. -/
def getInForest : DomForest → List Nat → Option DomNode
  | _, [] => none
  | ns, [i] => ns.get? i
  | ns, i :: j :: rest =>
    match ns.get? i with
    | some n => getInForest (childrenOf n) (j :: rest)
    | none => none

/-- Node lookup relative to a node: `[]` addresses the node itself. -/
def getInNode (n : DomNode) : List Nat → Option DomNode
  | [] => some n
  | i :: rest => getInForest (childrenOf n) (i :: rest)

/-- The child list of the node addressed by a path ([] addresses the document
node itself, whose children are `doc`). -/
def childrenAtPath : DomForest → List Nat → DomForest
  | ns, [] => ns
  | ns, i :: rest => childrenAtPath (childrenOf ((ns.get? i).getD (.text ""))) rest

/-- The path addresses an element node, and every intermediate step goes
through an element node. -/
def validElemPath : DomForest → List Nat → Bool
  | _, [] => false
  | ns, [i] =>
    match ns.get? i with
    | some (.elem _ _) => true
    | _ => false
  | ns, i :: j :: rest =>
    match ns.get? i with
    | some (.elem _ cs) => validElemPath cs (j :: rest)
    | _ => false

/-! ### XPath synthesizer (`getXPathForElement`)

The script walks from the element to the root.  At each level it counts the
preceding element siblings with the same `nodeName`
(`nbOfPreviousSiblings`), checks whether any following sibling has the same
`nodeName` (`hasNextSiblings`), and emits `tag[n+1]` if either is
nonzero/true and the bare `tag` otherwise.  We represent a segment
structurally (`XSeg`) and render it to the string the script builds. -/

/-- A node is an element with the given `nodeName`. -/
def isElemWithTag (t : String) : DomNode → Bool
  | .elem info _ => info.tag == t
  | .text _ => false

/-- Number of nodes satisfying `f` among the first `i` nodes of a sibling
list (the nodes preceding index `i`). -/
def countPrevP (f : DomNode → Bool) : DomForest → Nat → Nat
  | .nil, _ => 0
  | .cons _ _, 0 => 0
  | .cons hd tl, i+1 => (if f hd then 1 else 0) + countPrevP f tl i

/-- Some node satisfying `f` exists in a sibling list. -/
def anyP (f : DomNode → Bool) : DomForest → Bool
  | .nil => false
  | .cons hd tl => f hd || anyP f tl

/-- Some node satisfying `f` exists among the first `i` nodes. -/
def anyBeforeP (f : DomNode → Bool) : DomForest → Nat → Bool
  | .nil, _ => false
  | .cons _ _, 0 => false
  | .cons hd tl, i+1 => f hd || anyBeforeP f tl i

/-- Some node satisfying `f` exists strictly after index `i`. -/
def anyAfterP (f : DomNode → Bool) : DomForest → Nat → Bool
  | .nil, _ => false
  | .cons _ tl, 0 => anyP f tl
  | .cons _ tl, i+1 => anyAfterP f tl i

/-- The number of preceding siblings that are elements with the same
`nodeName`: the first inner `while` loop of `getXPathForElement`. -/
def nbOfPreviousSiblings (sibs : DomForest) (i : Nat) (t : String) : Nat :=
  countPrevP (fun n => isElemWithTag t n) sibs i

/-- Whether some following sibling has the same `nodeName`: the second inner
`while` loop of `getXPathForElement` (it does not test the node type). -/
def hasNextSiblings (sibs : DomForest) (i : Nat) (t : String) : Bool :=
  anyAfterP (fun n => nodeNameOf n == t) sibs i

/-- One structural XPath segment: a (lower-cased) tag test with an optional
1-based position predicate. -/
structure XSeg where
  tag : String
  idx : Option Nat
deriving DecidableEq, Repr

/-- The string the script builds for one segment:
`tagName[nb+1]` or the bare `tagName`. -/
def XSeg.render (s : XSeg) : String :=
  match s.idx with
  | some k => s.tag ++ "[" ++ toString k ++ "]"
  | none => s.tag

/-- The segment emitted for the element at index `i` of sibling list `sibs`
with `nodeName` `t`: indexed when it has a same-named previous element
sibling or any same-named following sibling, bare otherwise. -/
def xseg (sibs : DomForest) (i : Nat) (t : String) : XSeg :=
  if nbOfPreviousSiblings sibs i t != 0 || hasNextSiblings sibs i t then
    { tag := strLower t, idx := some (nbOfPreviousSiblings sibs i t + 1) }
  else
    { tag := strLower t, idx := none }

/-- The segments accumulated by the `while` walk of `getXPathForElement`,
root first, for the node addressed by `p` inside the sibling forest `sibs`.
The walk starts at the addressed node itself, so a path whose target is not
an element node yields no segments (the loop body never runs). -/
def xpathSegsIn : DomForest → List Nat → List XSeg
  | _, [] => []
  | sibs, [i] =>
    match sibs.get? i with
    | some (.elem info _) => [xseg sibs i info.tag]
    | _ => []
  | sibs, i :: j :: rest =>
    match sibs.get? i with
    | some (.elem info cs) =>
      let deeper := xpathSegsIn cs (j :: rest)
      if deeper.isEmpty then [] else xseg sibs i info.tag :: deeper
    | _ => []

/-- `getXPathForElement`: the id shortcut when the element has a non-empty
`id`, otherwise the joined positional path, and `null` when no segment was
accumulated. -/
def getXPathForElement (doc : DomForest) (p : List Nat) : Option String :=
  let idStr :=
    match getInForest doc p with
    | some (.elem info _) => info.id
    | _ => ""
  if idStr != "" then some ("//*[@id=" ++ sQuote ++ idStr ++ sQuote ++ "]")
  else
    let parts := (xpathSegsIn doc p).map XSeg.render
    if parts.isEmpty then none else some ("/" ++ joinSlash parts)

/-! ### XPath evaluation

Standard child-axis XPath semantics for the paths the script emits, used to
state that a synthesized path re-evaluated against the same tree resolves to
the original element.  A name test selects the element children whose
lower-cased name equals the test (HTML documents expose lower-case local
names to XPath); a position predicate `[k]` keeps the k-th match per context
node. -/

/-- The XPath name test: element nodes whose lower-cased name equals `t`. -/
def matchesNameTest (t : String) : DomNode → Bool
  | .elem info _ => strLower info.tag == t
  | .text _ => false

/-- Indices (starting at `k`) of the nodes of a sibling list that match the
name test `t`. -/
def matchIdxsFrom (t : String) : DomForest → Nat → List Nat
  | .nil, _ => []
  | .cons n rest, k =>
    if matchesNameTest t n then k :: matchIdxsFrom t rest (k+1)
    else matchIdxsFrom t rest (k+1)

/-- Evaluate one step `tag` or `tag[k]` from the context node at path `p`. -/
def stepSeg (doc : DomForest) (s : XSeg) (p : List Nat) : List (List Nat) :=
  let ms := matchIdxsFrom s.tag (childrenAtPath doc p) 0
  match s.idx with
  | none => ms.map (fun i => p ++ [i])
  | some k =>
    match ms[k-1]? with
    | some i => [p ++ [i]]
    | none => []

/-- Evaluate an absolute location path `/s₁/s₂/…` from the document node:
the list of paths of the selected nodes, in document order. -/
def resolveXPath (doc : DomForest) (segs : List XSeg) : List (List Nat) :=
  segs.foldl (fun ctxs s => ctxs.flatMap (stepSeg doc s)) [[]]

/-! ### Element discovery (`document.querySelectorAll(interactiveSelector)`)

The selector is
`a, button, input, select, textarea, label, h1, h2, h3, h4,
[role="button"], [role="link"], [role="tab"], [onclick]`.
`querySelectorAll` returns each matching element once, in document order
(pre-order).  We enumerate the forest accordingly, returning the path of
each match together with the node. -/

/-- Whether an element matches the fixed `interactiveSelector` (HTML tag
selectors match the name case-insensitively, attribute selectors by exact
value, `[onclick]` by attribute presence). -/
def matchesInteractive (info : ElemInfo) : Bool :=
  ["a", "button", "input", "select", "textarea", "label",
    "h1", "h2", "h3", "h4"].contains (strLower info.tag)
  || info.role == some "button" || info.role == some "link"
  || info.role == some "tab" || info.onclick.isSome

mutual
/-- Pre-order enumeration of the elements of a subtree that satisfy `q`,
with their paths; `p` is the path of the node itself. -/
def collectNode (q : ElemInfo → Bool) (p : List Nat) :
    DomNode → List (List Nat × DomNode)
  | .text _ => []
  | .elem info cs =>
    (if q info then [(p, DomNode.elem info cs)] else [])
      ++ collectForest q p 0 cs

/-- Pre-order enumeration over a sibling list; `p` is the parent's path and
`i` the index of the first node of the list among its siblings. -/
def collectForest (q : ElemInfo → Bool) (p : List Nat) (i : Nat) :
    DomForest → List (List Nat × DomNode)
  | .nil => []
  | .cons hd tl => collectNode q (p ++ [i]) hd ++ collectForest q p (i+1) tl
end

/-- `document.querySelectorAll(interactiveSelector)`: the candidate stream
`allPotentialElements`, in document order. -/
def allPotentialElements (doc : DomForest) : List (List Nat × DomNode) :=
  collectForest matchesInteractive [] 0 doc

/-- `document.querySelector("label[for=ID]")`: the first label element
in document order whose `for` attribute equals the given id. -/
def querySelectorLabelFor (doc : DomForest) (idv : String) :
    Option (List Nat) :=
  (collectForest
    (fun info => strLower info.tag == "label" && info.forAttr == some idv)
    [] 0 doc).head?.map (fun pr => pr.1)

/-! ### Text extraction -/

mutual
/-- `node.textContent`: the concatenated data of all descendant text
nodes. -/
def textContentN : DomNode → String
  | .text s => s
  | .elem _ cs => textContentF cs

/-- `textContent` of a sibling list. -/
def textContentF : DomForest → String
  | .nil => ""
  | .cons hd tl => textContentN hd ++ textContentF tl
end

/-- `node.textContent` for the node addressed by a path ("" off the tree). -/
def textContentAt (doc : DomForest) (p : List Nat) : String :=
  match getInForest doc p with
  | some n => textContentN n
  | none => ""

/-- `element.closest(tag)` walking a reversed path: try the node the full
path addresses, then drop the last index and retry on the ancestor. -/
def closestTagRev (doc : DomForest) (t : String) :
    List Nat → Option (List Nat)
  | [] => none
  | i :: restRev =>
    match getInForest doc ((i :: restRev).reverse) with
    | some (.elem info _) =>
      if strLower info.tag == t then some ((i :: restRev).reverse)
      else closestTagRev doc t restRev
    | _ => closestTagRev doc t restRev

/-- `element.closest(t)` for the element addressed by `p`: the nearest
inclusive ancestor element whose lower-cased tag is `t`. -/
def closestTag (doc : DomForest) (p : List Nat) (t : String) :
    Option (List Nat) :=
  closestTagRev doc t p.reverse

/-- The `labelText` computation of the main loop: text of the first
`label[for=id]` when the element has an id and that label exists, with a
fallback to the text of `element.closest("label")` when the first attempt
produced the empty string. -/
def labelTextOf (doc : DomForest) (p : List Nat) (info : ElemInfo) :
    String :=
  let lt :=
    if info.id != "" then
      match querySelectorLabelFor doc info.id with
      | some lp => strTrim (textContentAt doc lp)
      | none => ""
    else ""
  if lt == "" then
    match closestTag doc p "label" with
    | some lp => strTrim (textContentAt doc lp)
    | none => ""
  else lt

/-- `element.value ? element.value.trim() : ""` (the `value` property is
`undefined` on elements that are not form controls). -/
def valueTextOf (info : ElemInfo) : String :=
  match info.valueProp with
  | some v => if v == "" then "" else strTrim v
  | none => ""

/-- `visibleText = mainText || valueText` where
`mainText = (element.textContent || element.innerText || "").trim()`;
`innerText` is only consulted when `textContent` is the empty string, in
which case the subtree holds no text and `innerText` is empty as well. -/
def visibleTextOf (info : ElemInfo) (cs : DomForest) : String :=
  jsOr (strTrim (textContentF cs)) (valueTextOf info)

/-- The `computedText` of the main loop:
`(ariaLabel || labelText || visibleText || placeholder || name || "")
  .replace(/\s+/g, " ").trim()`. -/
def computedTextOf (doc : DomForest) (p : List Nat) (info : ElemInfo)
    (cs : DomForest) : String :=
  normalizeWs
    (jsOr (optStr info.ariaLabel)
      (jsOr (labelTextOf doc p info)
        (jsOr (visibleTextOf info cs)
          (jsOr (optStr info.placeholder)
            (jsOr (optStr info.nameAttr) "")))))

/-! ### Records -/

/-- `x || null` for a plain string property. -/
def strOrNull (s : String) : Option String :=
  if s == "" then none else some s

/-- `getAttribute(...) || null`: an absent or empty attribute becomes null. -/
def attrOrNull (o : Option String) : Option String :=
  match o with
  | some s => if s == "" then none else some s
  | none => none

/-- The `attributes` object of an ElementRecord. -/
structure AttrsRec where
  id : Option String
  className : Option String
  name : Option String
  type : Option String
  role : Option String
  ariaLabel : Option String
  placeholder : Option String
  href : Option String
deriving DecidableEq, Repr

/-- The `state` object of an ElementRecord; `none` models a property that
is `undefined` on the element kind at hand. -/
structure StateRec where
  isDisabled : Option Bool
  isReadOnly : Option Bool
  isChecked : Option Bool
  isSelected : Option Bool
  isHiddenByAria : Bool
deriving DecidableEq, Repr

/-- The `text` object of an ElementRecord. -/
structure TextRec where
  visibleText : Option String
  labelText : Option String
  computedText : String
deriving DecidableEq, Repr

/-- The `form` part of an ancestor context. -/
structure FormRec where
  id : Option String
  name : Option String
deriving DecidableEq, Repr

/-- The ancestor context captured by `getAncestorContext`. -/
structure ContextRec where
  tagName : String
  id : Option String
  role : Option String
  ariaLabel : Option String
  form : Option FormRec
deriving DecidableEq, Repr

/-- The `location` object of an ElementRecord. -/
structure LocationRec where
  x : Int
  y : Int
  width : Int
  height : Int
deriving DecidableEq, Repr

/-- One entry of `elementDetails`. -/
structure ElementRecord where
  tagName : String
  attributes : AttrsRec
  state : StateRec
  text : TextRec
  context : Option ContextRec
  xpath : Option String
  location : LocationRec
deriving DecidableEq, Repr

/-- `getAncestorContext`: the immediate parent element's tag/id/role/aria
label, plus id/name of `element.closest("form")` when present; null when
the element has no parent element (its parent is the document node). -/
def getAncestorContext (doc : DomForest) (p : List Nat) :
    Option ContextRec :=
  match p.dropLast, getInForest doc p.dropLast with
  | _ :: _, some (.elem pinfo _) =>
    some
      { tagName := strLower pinfo.tag
      , id := strOrNull pinfo.id
      , role := attrOrNull pinfo.role
      , ariaLabel := attrOrNull pinfo.ariaLabel
      , form :=
          match closestTag doc p "form" with
          | some fp =>
            match getInForest doc fp with
            | some (.elem finfo _) =>
              some { id := strOrNull finfo.id
                   , name := attrOrNull finfo.nameAttr }
            | _ => none
          | none => none }
  | _, _ => none

/-- Rule 1 of the main loop: the element is skipped unless its bounding box
has nonzero width and height, it has an offset parent, and its computed
style is neither `visibility: hidden` nor `display: none`. -/
def isVisible (info : ElemInfo) : Bool :=
  !(info.rectW == 0 || info.rectH == 0 || !info.hasOffsetParent
    || info.visibility == "hidden" || info.display == "none")

/-- The object pushed onto `elementDetails` for one surviving element. -/
def buildRecord (doc : DomForest) (p : List Nat) (info : ElemInfo)
    (cs : DomForest) : ElementRecord :=
  let visibleText := visibleTextOf info cs
  let labelText := labelTextOf doc p info
  { tagName := strLower info.tag
  , attributes :=
    { id := strOrNull info.id
    , className := strOrNull info.className
    , name := attrOrNull info.nameAttr
    , type := if strLower info.tag == "input" then some info.typeProp else none
    , role := attrOrNull info.role
    , ariaLabel := attrOrNull info.ariaLabel
    , placeholder := attrOrNull info.placeholder
    , href := attrOrNull info.href }
  , state :=
    { isDisabled := info.disabled
    , isReadOnly := info.readOnly
    , isChecked := info.checked
    , isSelected := info.selected
    , isHiddenByAria := info.ariaHidden == some "true" }
  , text :=
    { visibleText := strOrNull visibleText
    , labelText := strOrNull labelText
    , computedText := computedTextOf doc p info cs }
  , context := getAncestorContext doc p
  , xpath := getXPathForElement doc p
  , location :=
    { x := info.rectX, y := info.rectY
    , width := info.rectW, height := info.rectH } }

/-- The body of the `forEach` over `allPotentialElements`: the accumulator
carries the `processedElements` set (as a list of paths) and the
`elementDetails` array (paired with the path of the originating element). -/
def scanStep (doc : DomForest)
    (acc : List (List Nat) × List (List Nat × ElementRecord))
    (cand : List Nat × DomNode) :
    List (List Nat) × List (List Nat × ElementRecord) :=
  let processed := acc.1
  let out := acc.2
  let p := cand.1
  if processed.contains p then acc
  else
    match cand.2 with
    | .elem info cs =>
      if !(isVisible info) then acc
      else if info.id == "" && computedTextOf doc p info cs == "" then acc
      else (p :: processed, out ++ [(p, buildRecord doc p info cs)])
    | .text _ => acc

/-- The whole scan: `elementDetails` entries paired with the path of the
element each one describes. -/
def scanPairs (doc : DomForest) : List (List Nat × ElementRecord) :=
  ((allPotentialElements doc).foldl (scanStep doc) ([], [])).2

/-- The final `elementDetails` array. -/
def elementDetails (doc : DomForest) : List ElementRecord :=
  (scanPairs doc).map (fun pr => pr.2)

mutual
/-- Well-formed tag names at a node: every element's `nodeName` is already
lower case and is not the reserved text-node name `"#text"`.  Real HTML
DOMs expose canonical tag names, so this holds for the documents the script
runs on (stated for the lower-case convention XPath evaluation sees). -/
def wfTagsN : DomNode → Bool
  | .text _ => true
  | .elem info cs =>
    (strLower info.tag == info.tag) && (info.tag != "#text") && wfTagsF cs

/-- Well-formed tag names throughout a sibling list. -/
def wfTagsF : DomForest → Bool
  | .nil => true
  | .cons hd tl => wfTagsN hd && wfTagsF tl
end

/-! ### JSON serialization (`JSON.stringify` / `JSON.parse`)

`console.log(JSON.stringify(elementDetails, null, 2))` serializes the
record array.  We model JSON at the level of its value tree: `stringify`
maps a record to a `Json` value (dropping object keys whose value is
`undefined`, exactly as `JSON.stringify` does) and the parser maps the
value tree back (a key that is absent reads back as `undefined`).
Geometry is integral in our model, so numbers round-trip exactly. -/

/-- A JSON value. -/
inductive Json where
  | null
  | bool (b : Bool)
  | num (n : Int)
  | str (s : String)
  | arr (elems : List Json)
  | obj (fields : List (String × Json))

/-- A string-or-null record field. -/
def jsonOfNullableStr : Option String → Json
  | none => Json.null
  | some s => Json.str s

/-- A boolean field: present when defined, dropped when `undefined`. -/
def optBoolField (k : String) : Option Bool → List (String × Json)
  | none => []
  | some b => [(k, Json.bool b)]

/-- `JSON.stringify` of the `attributes` object. -/
def attrsToJson (a : AttrsRec) : Json :=
  .obj
    [ ("id", jsonOfNullableStr a.id)
    , ("class", jsonOfNullableStr a.className)
    , ("name", jsonOfNullableStr a.name)
    , ("type", jsonOfNullableStr a.type)
    , ("role", jsonOfNullableStr a.role)
    , ("ariaLabel", jsonOfNullableStr a.ariaLabel)
    , ("placeholder", jsonOfNullableStr a.placeholder)
    , ("href", jsonOfNullableStr a.href) ]

/-- `JSON.stringify` of the `state` object: keys whose value is the
`undefined` of the host are dropped. -/
def stateToJson (s : StateRec) : Json :=
  .obj
    (optBoolField "isDisabled" s.isDisabled
      ++ optBoolField "isReadOnly" s.isReadOnly
      ++ optBoolField "isChecked" s.isChecked
      ++ optBoolField "isSelected" s.isSelected
      ++ [("isHiddenByAria", Json.bool s.isHiddenByAria)])

/-- `JSON.stringify` of the `text` object. -/
def textToJson (t : TextRec) : Json :=
  .obj
    [ ("visibleText", jsonOfNullableStr t.visibleText)
    , ("labelText", jsonOfNullableStr t.labelText)
    , ("computedText", Json.str t.computedText) ]

/-- `JSON.stringify` of the `form` part of a context. -/
def formToJson (f : FormRec) : Json :=
  .obj [("id", jsonOfNullableStr f.id), ("name", jsonOfNullableStr f.name)]

/-- `JSON.stringify` of the `context` field; the `form` key exists only
when a form ancestor was found. -/
def contextToJson : Option ContextRec → Json
  | none => Json.null
  | some c =>
    .obj
      ([ ("tagName", Json.str c.tagName)
       , ("id", jsonOfNullableStr c.id)
       , ("role", jsonOfNullableStr c.role)
       , ("ariaLabel", jsonOfNullableStr c.ariaLabel) ]
        ++ (match c.form with
            | none => []
            | some f => [("form", formToJson f)]))

/-- `JSON.stringify` of the `location` object. -/
def locationToJson (l : LocationRec) : Json :=
  .obj
    [ ("x", Json.num l.x), ("y", Json.num l.y)
    , ("width", Json.num l.width), ("height", Json.num l.height) ]

/-- `JSON.stringify` of one ElementRecord. -/
def recordToJson (r : ElementRecord) : Json :=
  .obj
    [ ("tagName", Json.str r.tagName)
    , ("attributes", attrsToJson r.attributes)
    , ("state", stateToJson r.state)
    , ("text", textToJson r.text)
    , ("context", contextToJson r.context)
    , ("xpath", jsonOfNullableStr r.xpath)
    , ("location", locationToJson r.location) ]

/-- `JSON.stringify` of the whole `elementDetails` array. -/
def recordsToJson (rs : List ElementRecord) : Json :=
  .arr (rs.map recordToJson)

/-- Read back a string-or-null field. -/
def parseNullableStr : Json → Option (Option String)
  | Json.null => some none
  | Json.str s => some (some s)
  | _ => none

/-- Read back a plain string field. -/
def parseStr : Json → Option String
  | Json.str s => some s
  | _ => none

/-- Read back a number field. -/
def parseNum : Json → Option Int
  | Json.num n => some n
  | _ => none

/-- Read back an optional boolean field: an absent key is the host's
`undefined`. -/
def parseOptBoolField (fs : List (String × Json)) (k : String) :
    Option (Option Bool) :=
  match fs.lookup k with
  | none => some none
  | some (Json.bool b) => some (some b)
  | some _ => none

/-- Parse the `attributes` object. -/
def parseAttrs : Json → Option AttrsRec
  | Json.obj fs => do
    let idv ← (fs.lookup "id").bind parseNullableStr
    let cl ← (fs.lookup "class").bind parseNullableStr
    let nm ← (fs.lookup "name").bind parseNullableStr
    let ty ← (fs.lookup "type").bind parseNullableStr
    let ro ← (fs.lookup "role").bind parseNullableStr
    let al ← (fs.lookup "ariaLabel").bind parseNullableStr
    let ph ← (fs.lookup "placeholder").bind parseNullableStr
    let hr ← (fs.lookup "href").bind parseNullableStr
    pure
      { id := idv, className := cl, name := nm, type := ty, role := ro
      , ariaLabel := al, placeholder := ph, href := hr }
  | _ => none

/-- Parse the `state` object. -/
def parseState : Json → Option StateRec
  | Json.obj fs => do
    let d ← parseOptBoolField fs "isDisabled"
    let ro ← parseOptBoolField fs "isReadOnly"
    let ch ← parseOptBoolField fs "isChecked"
    let se ← parseOptBoolField fs "isSelected"
    let hi ←
      match fs.lookup "isHiddenByAria" with
      | some (Json.bool b) => some b
      | _ => none
    pure
      { isDisabled := d, isReadOnly := ro, isChecked := ch
      , isSelected := se, isHiddenByAria := hi }
  | _ => none

/-- Parse the `text` object. -/
def parseText : Json → Option TextRec
  | Json.obj fs => do
    let vt ← (fs.lookup "visibleText").bind parseNullableStr
    let lt ← (fs.lookup "labelText").bind parseNullableStr
    let ct ← (fs.lookup "computedText").bind parseStr
    pure { visibleText := vt, labelText := lt, computedText := ct }
  | _ => none

/-- Parse the `form` part of a context. -/
def parseForm : Json → Option FormRec
  | Json.obj fs => do
    let idv ← (fs.lookup "id").bind parseNullableStr
    let nm ← (fs.lookup "name").bind parseNullableStr
    pure { id := idv, name := nm }
  | _ => none

/-- Parse the `context` field. -/
def parseContext : Json → Option (Option ContextRec)
  | Json.null => some none
  | Json.obj fs => do
    let tn ← (fs.lookup "tagName").bind parseStr
    let idv ← (fs.lookup "id").bind parseNullableStr
    let ro ← (fs.lookup "role").bind parseNullableStr
    let al ← (fs.lookup "ariaLabel").bind parseNullableStr
    let fm ←
      match fs.lookup "form" with
      | none => some none
      | some j => (parseForm j).map some
    pure (some { tagName := tn, id := idv, role := ro, ariaLabel := al, form := fm })
  | _ => none

/-- Parse the `location` object. -/
def parseLocation : Json → Option LocationRec
  | Json.obj fs => do
    let x ← (fs.lookup "x").bind parseNum
    let y ← (fs.lookup "y").bind parseNum
    let w ← (fs.lookup "width").bind parseNum
    let h ← (fs.lookup "height").bind parseNum
    pure { x := x, y := y, width := w, height := h }
  | _ => none

/-- Parse one ElementRecord. -/
def parseRecord : Json → Option ElementRecord
  | Json.obj fs => do
    let tn ← (fs.lookup "tagName").bind parseStr
    let at2 ← (fs.lookup "attributes").bind parseAttrs
    let st ← (fs.lookup "state").bind parseState
    let tix ← (fs.lookup "text").bind parseText
    let cx ← (fs.lookup "context").bind parseContext
    let xp ← (fs.lookup "xpath").bind parseNullableStr
    let lo ← (fs.lookup "location").bind parseLocation
    pure
      { tagName := tn, attributes := at2, state := st, text := tix
      , context := cx, xpath := xp, location := lo }
  | _ => none

/-- Parse a list of serialized records, failing if any entry fails. -/
def parseRecordList : List Json → Option (List ElementRecord)
  | [] => some []
  | j :: rest => do
    let r ← parseRecord j
    let rs ← parseRecordList rest
    pure (r :: rs)

/-- Parse the whole serialized array. -/
def parseRecords : Json → Option (List ElementRecord)
  | Json.arr js => parseRecordList js
  | _ => none

/-! ### Claim-side (specification) definitions

These are written from the words of the specification, independently of the
script, to be compared with the translated code. -/

/-- The first non-empty string of a priority list ("" when all are empty). -/
def firstNonEmpty : List String → String
  | [] => ""
  | s :: rest => if s = "" then firstNonEmpty rest else s

/-- The raw text of the associated `label[for=id]` ("" when the element has
no id or no such label exists). -/
def labelForTextRaw (doc : DomForest) (info : ElemInfo) : String :=
  if info.id != "" then
    match querySelectorLabelFor doc info.id with
    | some lp => textContentAt doc lp
    | none => ""
  else ""

/-- The raw text of the enclosing label ("" when there is none). -/
def enclosingLabelTextRaw (doc : DomForest) (p : List Nat) : String :=
  match closestTag doc p "label" with
  | some lp => textContentAt doc lp
  | none => ""

/-- Claim C3 as written: `computedText` is the first non-empty source in
priority order — aria-label, text of `label[for=id]`, text of an enclosing
label, own text content, own value, placeholder, name — with the selected
result whitespace-normalized. -/
def specComputedTextClaim (doc : DomForest) (p : List Nat)
    (info : ElemInfo) (cs : DomForest) : String :=
  normalizeWs (firstNonEmpty
    [ optStr info.ariaLabel
    , labelForTextRaw doc info
    , enclosingLabelTextRaw doc p
    , textContentF cs
    , optStr info.valueProp
    , optStr info.placeholder
    , optStr info.nameAttr ])

/-- Claim C3 amended to what the script computes: the label texts, the own
text content and the own value are trimmed before the non-emptiness test
(so whitespace-only candidates are skipped), while aria-label, placeholder
and name are tested raw; the selected result is whitespace-normalized. -/
def specComputedTextAmended (doc : DomForest) (p : List Nat)
    (info : ElemInfo) (cs : DomForest) : String :=
  normalizeWs (firstNonEmpty
    [ optStr info.ariaLabel
    , strTrim (labelForTextRaw doc info)
    , strTrim (enclosingLabelTextRaw doc p)
    , strTrim (textContentF cs)
    , strTrim (optStr info.valueProp)
    , optStr info.placeholder
    , optStr info.nameAttr ])

/-- Claim C2, segment side: at each level the emitted segment is
`tag[k]` — `k` being 1 plus the number of preceding element siblings
sharing the element's tag name — exactly when some preceding or following
sibling shares that tag name, and the bare `tag` otherwise. -/
def specSeg (sibs : DomForest) (i : Nat) (t : String) : XSeg :=
  let nb := countPrevP (fun n => isElemWithTag t n) sibs i
  let shared :=
    anyBeforeP (fun n => isElemWithTag t n) sibs i
      || anyAfterP (fun n => isElemWithTag t n) sibs i
  if shared then { tag := strLower t, idx := some (nb + 1) }
  else { tag := strLower t, idx := none }

/-- Claim C2, path side: the claim-side segments for each level of the walk
from the element to the root. -/
def specSegsIn : DomForest → List Nat → List XSeg
  | _, [] => []
  | sibs, [i] =>
    match sibs.get? i with
    | some (.elem info _) => [specSeg sibs i info.tag]
    | _ => []
  | sibs, i :: j :: rest =>
    match sibs.get? i with
    | some (.elem info cs) =>
      let deeper := specSegsIn cs (j :: rest)
      if deeper.isEmpty then [] else specSeg sibs i info.tag :: deeper
    | _ => []

/-! ### Concrete test documents

Rendered pages used to instantiate the theorems.  `mkInfo` builds a
visible, attribute-less element record with defaults (all arguments are
positional); concrete elements override only what they need.  All tag
names are canonical lower case. -/

/-- A visible rendered element: defaults model an element with no
attributes, a 100x20 bounding box, an offset parent and plain styles. -/
def mkInfo (tag : String) (id : String := "")
    (ariaLabel : Option String := none) (nameAttr : Option String := none)
    (valueProp : Option String := none) (typeProp : String := "")
    (checked : Option Bool := none) (placeholder : Option String := none)
    (forAttr : Option String := none) (role : Option String := none)
    (href : Option String := none) (className : String := "")
    (onclick : Option String := none) (ariaHidden : Option String := none)
    (disabled : Option Bool := none) (readOnly : Option Bool := none)
    (selected : Option Bool := none) (rectW : Int := 100) (rectH : Int := 20)
    (rectX : Int := 0) (rectY : Int := 0) (hasOffsetParent : Bool := true)
    (visibility : String := "visible") (display : String := "block") :
    ElemInfo :=
  { tag := tag, id := id, className := className, role := role
  , ariaLabel := ariaLabel, placeholder := placeholder, nameAttr := nameAttr
  , href := href, onclick := onclick, forAttr := forAttr
  , ariaHidden := ariaHidden, valueProp := valueProp, typeProp := typeProp
  , disabled := disabled, readOnly := readOnly, checked := checked
  , selected := selected, rectX := rectX, rectY := rectY, rectW := rectW
  , rectH := rectH, hasOffsetParent := hasOffsetParent
  , visibility := visibility, display := display }

/-- C1 witness page: a single visible button with text. -/
def exDoc1 : DomForest := .ofList
  [el (mkInfo "html")
    [el (mkInfo "body")
      [el (mkInfo "button") [tx "Go"]]]]

/-- C2 witness page: two div siblings, the target being the second. -/
def exDoc2 : DomForest := .ofList
  [el (mkInfo "html")
    [el (mkInfo "body")
      [ tx "x"
      , el (mkInfo "div") []
      , el (mkInfo "div") []
      , el (mkInfo "span") [] ]]]

/-- C3 counterexample element: an anchor with whitespace-only text content
and a `name` attribute. -/
def exInfo3 : ElemInfo := mkInfo "a" "" none (some "anchor1")

/-- C3 counterexample page. -/
def exDoc3 : DomForest := .ofList
  [el (mkInfo "html")
    [el (mkInfo "body") [el exInfo3 [tx " "]]]]

/-- C3 amended-claim example element: a button with
`aria-label="Submit Now"` and visible text `Go`. -/
def exInfo3w : ElemInfo := mkInfo "button" "" (some "Submit Now")

/-- C3 amended-claim example page. -/
def exDoc3w : DomForest := .ofList
  [el (mkInfo "html")
    [el (mkInfo "body") [el exInfo3w [tx "Go"]]]]

/-- C4 counterexample element: a visible text input that has an id but no
text source at all (its `value` property is the empty string). -/
def exInfo4 : ElemInfo := mkInfo "input" "field7" none none (some "") "text"

/-- C4 counterexample page. -/
def exDoc4 : DomForest := .ofList
  [el (mkInfo "html")
    [el (mkInfo "body") [el exInfo4 []]]]

/-- C4 witness page: a button without id but with text. -/
def exDoc4w : DomForest := .ofList
  [el (mkInfo "html")
    [el (mkInfo "body")
      [el (mkInfo "button") [tx "Save"]]]]

/-- C7 witness page: a button with id `submit-btn`. -/
def exDoc7 : DomForest := .ofList
  [el (mkInfo "html")
    [el (mkInfo "body")
      [el (mkInfo "button" "submit-btn") [tx "Go"]]]]

/-- C8 witness element: an anchor with text and no id. -/
def exInfo8 : ElemInfo :=
  mkInfo "a" "" none none none "" none none none none (some "/home")

/-- C8 witness page. -/
def exDoc8 : DomForest := .ofList
  [el (mkInfo "html")
    [el (mkInfo "body") [el exInfo8 [tx "Home"]]]]

/-- C9 element: the checkbox of the claim scenario — id `agree`, no label,
aria-label `I agree`, checked. -/
def exInfo9 : ElemInfo :=
  mkInfo "input" "agree" (some "I agree") none (some "on") "checkbox" (some true)

/-- C9 page. -/
def exDoc9 : DomForest := .ofList
  [el (mkInfo "html")
    [el (mkInfo "body") [el exInfo9 []]]]

/-- C10 witness element: a select with an id. -/
def exInfo10s : ElemInfo := mkInfo "select" "s1" none none none "select-one"

/-- C10 witness input element. -/
def exInfo10i : ElemInfo := mkInfo "input" "i1" none none (some "") "text"

/-- C10 witness page. -/
def exDoc10 : DomForest := .ofList
  [el (mkInfo "html")
    [el (mkInfo "body")
      [el exInfo10s [], el exInfo10i []]]]

/-! ### Helper lemmas -/

theorem jsOr_assoc (a b c : String) : jsOr (jsOr a b) c = jsOr a (jsOr b c) := by
  by_cases h : a = "" <;> simp [jsOr, h]

theorem firstNonEmpty_cons (s : String) (l : List String) :
    firstNonEmpty (s :: l) = jsOr s (firstNonEmpty l) := rfl

theorem strTrim_empty : strTrim "" = "" := rfl

theorem valueTextOf_eq (info : ElemInfo) :
    valueTextOf info = strTrim (optStr info.valueProp) := by
  cases h : info.valueProp with
  | none => simp [valueTextOf, optStr, h, strTrim_empty]
  | some v =>
    by_cases hv : v = "" <;> simp [valueTextOf, optStr, h, hv, strTrim_empty]

theorem labelTextOf_eq (doc : DomForest) (p : List Nat) (info : ElemInfo) :
    labelTextOf doc p info
      = jsOr (strTrim (labelForTextRaw doc info))
          (strTrim (enclosingLabelTextRaw doc p)) := by
  unfold labelTextOf labelForTextRaw enclosingLabelTextRaw
  by_cases hid : info.id != ""
  · simp only [hid, if_pos]
    cases hq : querySelectorLabelFor doc info.id with
    | none =>
      simp only [strTrim_empty]
      cases hc : closestTag doc p "label" <;> simp [jsOr, strTrim_empty]
    | some lp =>
      cases hc : closestTag doc p "label" <;>
        by_cases ht : strTrim (textContentAt doc lp) = "" <;>
          simp [jsOr, ht, strTrim_empty]
  · simp only [hid, if_neg, Bool.false_eq_true, not_false_eq_true, strTrim_empty]
    cases hc : closestTag doc p "label" <;> simp [jsOr, strTrim_empty]

theorem parseNullableStr_roundtrip (o : Option String) :
    parseNullableStr (jsonOfNullableStr o) = some o := by
  cases o <;> rfl

theorem parseAttrs_roundtrip (a : AttrsRec) :
    parseAttrs (attrsToJson a) = some a := by
  rcases a with ⟨i, c, n, t, r, al, ph, hr⟩
  cases i <;> cases c <;> cases n <;> cases t <;> cases r <;> cases al <;>
    cases ph <;> cases hr <;> rfl

theorem parseState_roundtrip (s : StateRec) :
    parseState (stateToJson s) = some s := by
  rcases s with ⟨d, ro, ch, se, hi⟩
  cases d <;> cases ro <;> cases ch <;> cases se <;> rfl

theorem parseText_roundtrip (t : TextRec) :
    parseText (textToJson t) = some t := by
  rcases t with ⟨vt, lt, ct⟩
  cases vt <;> cases lt <;> rfl

theorem parseForm_roundtrip (f : FormRec) :
    parseForm (formToJson f) = some f := by
  rcases f with ⟨i, n⟩
  cases i <;> cases n <;> rfl

theorem parseContext_roundtrip (c : Option ContextRec) :
    parseContext (contextToJson c) = some c := by
  rcases c with _ | ⟨tn, i, r, al, fm⟩
  · rfl
  · rcases fm with _ | ⟨fi, fn⟩
    · cases i <;> cases r <;> cases al <;> rfl
    · cases i <;> cases r <;> cases al <;> cases fi <;> cases fn <;> rfl

theorem parseLocation_roundtrip (l : LocationRec) :
    parseLocation (locationToJson l) = some l := rfl

theorem parseRecord_roundtrip (r : ElementRecord) :
    parseRecord (recordToJson r) = some r := by
  rcases r with ⟨tn, a, s, t, c, xp, lo⟩
  simp [recordToJson, parseRecord, List.lookup, parseStr,
    parseAttrs_roundtrip, parseState_roundtrip, parseText_roundtrip,
    parseContext_roundtrip, parseLocation_roundtrip,
    parseNullableStr_roundtrip]

theorem parseRecordList_roundtrip (rs : List ElementRecord) :
    parseRecordList (rs.map recordToJson) = some rs := by
  induction rs with
  | nil => rfl
  | cons r rest ih =>
    simp [parseRecordList, parseRecord_roundtrip, ih]

theorem getInForest_cons_eq (ns : DomForest) (j : Nat) (rest : List Nat) :
    getInForest ns (j :: rest)
      = (ns.get? j).bind (fun c => getInNode c rest) := by
  cases rest with
  | nil => cases h : ns.get? j <;> simp [getInForest, getInNode, h]
  | cons r rs => cases h : ns.get? j <;> simp [getInForest, getInNode, h]

theorem collect_sound_forest (f : DomForest) :
    ∀ (q : ElemInfo → Bool) (p : List Nat) (i : Nat) (p2 : List Nat)
      (m : DomNode), (p2, m) ∈ collectForest q p i f →
      ∃ j rest, i ≤ j ∧ p2 = p ++ (j :: rest)
        ∧ ((f.get? (j - i)).bind (fun c => getInNode c rest)) = some m
        ∧ ∃ info cs, m = DomNode.elem info cs ∧ q info = true :=
  @DomForest.rec
    (fun n => ∀ (q : ElemInfo → Bool) (p p2 : List Nat) (m : DomNode),
      (p2, m) ∈ collectNode q p n →
      ∃ rel, p2 = p ++ rel ∧ getInNode n rel = some m
        ∧ ∃ info cs, m = DomNode.elem info cs ∧ q info = true)
    (fun f => ∀ (q : ElemInfo → Bool) (p : List Nat) (i : Nat)
      (p2 : List Nat) (m : DomNode), (p2, m) ∈ collectForest q p i f →
      ∃ j rest, i ≤ j ∧ p2 = p ++ (j :: rest)
        ∧ ((f.get? (j - i)).bind (fun c => getInNode c rest)) = some m
        ∧ ∃ info cs, m = DomNode.elem info cs ∧ q info = true)
    (by intro s q p p2 m hm; simp [collectNode] at hm)
    (by
      intro info cs ih q p p2 m hm
      simp only [collectNode, List.mem_append] at hm
      rcases hm with hm | hm
      · by_cases hq : q info = true
        · simp only [hq, if_pos, List.mem_singleton, Prod.mk.injEq] at hm
          exact ⟨[], by simp [hm.1], by simp [hm.2, getInNode],
            info, cs, hm.2, hq⟩
        · simp [hq] at hm
      · obtain ⟨j, rest, _, hp2, hget, hmatch⟩ := ih q p 0 p2 m hm
        refine ⟨j :: rest, hp2, ?_, hmatch⟩
        have hstep : getInNode (DomNode.elem info cs) (j :: rest)
            = getInForest cs (j :: rest) := rfl
        rw [hstep, getInForest_cons_eq]
        simpa using hget)
    (by intro q p i p2 m hm; simp [collectForest] at hm)
    (by
      intro hd tl ihh iht q p i p2 m hm
      simp only [collectForest, List.mem_append] at hm
      rcases hm with hm | hm
      · obtain ⟨rel, hp2, hget, hmatch⟩ := ihh q (p ++ [i]) p2 m hm
        refine ⟨i, rel, le_refl i, by simp [hp2], ?_, hmatch⟩
        simp only [Nat.sub_self]
        simpa [DomForest.get?] using hget
      · obtain ⟨j, rest, hij, hp2, hget, hmatch⟩ := iht q p (i+1) p2 m hm
        refine ⟨j, rest, by omega, hp2, ?_, hmatch⟩
        have hji : j - i = (j - (i+1)) + 1 := by omega
        rw [hji]
        simpa [DomForest.get?] using hget)
    f

theorem allPotentialElements_sound (doc : DomForest) (p : List Nat)
    (n : DomNode) (hmem : (p, n) ∈ allPotentialElements doc) :
    getInForest doc p = some n
      ∧ ∃ info cs, n = DomNode.elem info cs ∧ matchesInteractive info = true := by
  obtain ⟨j, rest, _, hp, hget, hmatch⟩ :=
    collect_sound_forest doc matchesInteractive [] 0 p n hmem
  refine ⟨?_, hmatch⟩
  simp only [Nat.sub_zero] at hget
  simp only [hp, List.nil_append, getInForest_cons_eq]
  exact hget

theorem scanStep_processed (doc : DomForest)
    (st : List (List Nat) × List (List Nat × ElementRecord))
    (pc : List Nat) (nc : DomNode) (h : pc ∈ st.1) :
    scanStep doc st (pc, nc) = st := by
  simp [scanStep, h]

theorem scanStep_text (doc : DomForest)
    (st : List (List Nat) × List (List Nat × ElementRecord))
    (pc : List Nat) (s : String) :
    scanStep doc st (pc, .text s) = st := by
  by_cases h : pc ∈ st.1 <;> simp [scanStep, h]

theorem scanStep_invisible (doc : DomForest)
    (st : List (List Nat) × List (List Nat × ElementRecord))
    (pc : List Nat) (info : ElemInfo) (cs : DomForest)
    (hv : isVisible info = false) :
    scanStep doc st (pc, .elem info cs) = st := by
  by_cases h : pc ∈ st.1 <;> simp [scanStep, h, hv]

theorem scanStep_dropped (doc : DomForest)
    (st : List (List Nat) × List (List Nat × ElementRecord))
    (pc : List Nat) (info : ElemInfo) (cs : DomForest)
    (hid : info.id = "") (hct : computedTextOf doc pc info cs = "") :
    scanStep doc st (pc, .elem info cs) = st := by
  by_cases h : pc ∈ st.1 <;> simp [scanStep, h, hid, hct]

theorem scanStep_emit (doc : DomForest)
    (st : List (List Nat) × List (List Nat × ElementRecord))
    (pc : List Nat) (info : ElemInfo) (cs : DomForest)
    (h : pc ∉ st.1) (hv : isVisible info = true)
    (hc : ¬(info.id = "" ∧ computedTextOf doc pc info cs = "")) :
    scanStep doc st (pc, .elem info cs)
      = (pc :: st.1, st.2 ++ [(pc, buildRecord doc pc info cs)]) := by
  by_cases hid : info.id = ""
  · have hct : ¬(computedTextOf doc pc info cs = "") := fun hct => hc ⟨hid, hct⟩
    simp [scanStep, h, hv, hid, hct]
  · simp [scanStep, h, hv, hid]

theorem scan_fold (doc : DomForest)
    (cands : List (List Nat × DomNode)) :
    ∀ (st : List (List Nat) × List (List Nat × ElementRecord)),
      (∀ q, q ∈ st.1 ↔ ∃ r, (q, r) ∈ st.2) →
      (∀ q, q ∈ (cands.foldl (scanStep doc) st).1 ↔
          ∃ r, (q, r) ∈ (cands.foldl (scanStep doc) st).2)
      ∧ (∀ p2, (∃ r, (p2, r) ∈ (cands.foldl (scanStep doc) st).2) ↔
          ((∃ r, (p2, r) ∈ st.2) ∨
            ∃ info cs, (p2, DomNode.elem info cs) ∈ cands
              ∧ isVisible info = true
              ∧ ¬(info.id = "" ∧ computedTextOf doc p2 info cs = "")))
      ∧ ((st.2.map Prod.fst).Nodup →
          ((cands.foldl (scanStep doc) st).2.map Prod.fst).Nodup)
      ∧ (∀ p2 r, (p2, r) ∈ (cands.foldl (scanStep doc) st).2 →
          ((p2, r) ∈ st.2 ∨
            ∃ info cs, (p2, DomNode.elem info cs) ∈ cands
              ∧ isVisible info = true
              ∧ ¬(info.id = "" ∧ computedTextOf doc p2 info cs = "")
              ∧ r = buildRecord doc p2 info cs)) := by
  induction cands with
  | nil =>
    intro st hInv
    refine ⟨hInv, ?_, fun h => h, ?_⟩
    · intro p2; simp
    · intro p2 r h; simp only [List.not_mem_nil]; tauto
  | cons hd rest ih =>
    rcases hd with ⟨pc, nc⟩
    intro st hInv
    have hstep :
        (scanStep doc st (pc, nc) = st ∧
          ∀ info cs, nc = DomNode.elem info cs → isVisible info = true →
            ¬(info.id = "" ∧ computedTextOf doc pc info cs = "") →
            ∃ r, (pc, r) ∈ st.2)
        ∨ (∃ info cs, nc = DomNode.elem info cs
            ∧ pc ∉ st.1
            ∧ isVisible info = true
            ∧ ¬(info.id = "" ∧ computedTextOf doc pc info cs = "")
            ∧ scanStep doc st (pc, nc)
                = (pc :: st.1, st.2 ++ [(pc, buildRecord doc pc info cs)])) := by
      by_cases hpc : pc ∈ st.1
      · exact Or.inl ⟨scanStep_processed doc st pc nc hpc,
          fun _ _ _ _ _ => (hInv pc).1 hpc⟩
      · cases nc with
        | text s =>
          exact Or.inl ⟨scanStep_text doc st pc s,
            fun info cs hnc => by simp at hnc⟩
        | elem info cs =>
          by_cases hv : isVisible info = true
          · by_cases hc : info.id = "" ∧ computedTextOf doc pc info cs = ""
            · refine Or.inl ⟨scanStep_dropped doc st pc info cs hc.1 hc.2, ?_⟩
              intro info2 cs2 hnc _ hc2
              obtain ⟨h1, h2⟩ := DomNode.elem.inj hnc
              subst h1
              subst h2
              exact absurd hc hc2
            · exact Or.inr ⟨info, cs, rfl, hpc, hv, hc,
                scanStep_emit doc st pc info cs hpc hv hc⟩
          · refine Or.inl ⟨scanStep_invisible doc st pc info cs
              (by simpa using hv), ?_⟩
            intro info2 cs2 hnc hv2 _
            obtain ⟨h1, h2⟩ := DomNode.elem.inj hnc
            subst h1
            subst h2
            exact absurd hv2 hv
    rcases hstep with ⟨hst2, hcover⟩ | ⟨info, cs, hnc, hpc, hv, hc, hst2⟩
    · -- the head element does not change the state
      obtain ⟨ih1, ih2, ih3, ih4⟩ := ih st hInv
      rw [List.foldl_cons, hst2]
      refine ⟨ih1, ?_, ih3, ?_⟩
      · intro p2
        rw [ih2 p2]
        constructor
        · rintro (h | ⟨info2, cs2, hmem, hv2, hc2⟩)
          · exact Or.inl h
          · exact Or.inr ⟨info2, cs2, List.mem_cons_of_mem _ hmem, hv2, hc2⟩
        · rintro (h | ⟨info2, cs2, hmem, hv2, hc2⟩)
          · exact Or.inl h
          · rcases List.mem_cons.1 hmem with heq | hmem2
            · have h1 : p2 = pc := congrArg Prod.fst heq
              have h2 : DomNode.elem info2 cs2 = nc := congrArg Prod.snd heq
              subst h1
              exact Or.inl (hcover info2 cs2 h2.symm hv2 hc2)
            · exact Or.inr ⟨info2, cs2, hmem2, hv2, hc2⟩
      · intro p2 r hmem
        rcases ih4 p2 r hmem with h | ⟨info2, cs2, hmem2, hv2, hc2, hr⟩
        · exact Or.inl h
        · exact Or.inr ⟨info2, cs2, List.mem_cons_of_mem _ hmem2, hv2, hc2, hr⟩
    · -- the head element is emitted
      subst hnc
      rw [List.foldl_cons, hst2]
      have hInv2 : ∀ q, q ∈ (pc :: st.1, st.2
            ++ [(pc, buildRecord doc pc info cs)]).1 ↔
          ∃ r, (q, r) ∈ (pc :: st.1, st.2
            ++ [(pc, buildRecord doc pc info cs)]).2 := by
        intro q
        simp only [List.mem_cons, List.mem_append, List.mem_singleton,
          List.not_mem_nil, or_false]
        constructor
        · rintro (rfl | hq)
          · exact ⟨buildRecord doc q info cs, Or.inr rfl⟩
          · obtain ⟨r, hr⟩ := (hInv q).1 hq
            exact ⟨r, Or.inl hr⟩
        · rintro ⟨r, hr | hr⟩
          · exact Or.inr ((hInv q).2 ⟨r, hr⟩)
          · exact Or.inl (congrArg Prod.fst hr)
      obtain ⟨ih1, ih2, ih3, ih4⟩ := ih _ hInv2
      refine ⟨ih1, ?_, ?_, ?_⟩
      · intro p2
        rw [ih2 p2]
        have hmid : (∃ r, (p2, r) ∈ st.2
              ++ [(pc, buildRecord doc pc info cs)]) ↔
            ((∃ r, (p2, r) ∈ st.2) ∨ p2 = pc) := by
          simp only [List.mem_append, List.mem_singleton, List.mem_cons,
            List.not_mem_nil, or_false]
          constructor
          · rintro ⟨r, hr | hr⟩
            · exact Or.inl ⟨r, hr⟩
            · exact Or.inr (congrArg Prod.fst hr)
          · rintro (⟨r, hr⟩ | rfl)
            · exact ⟨r, Or.inl hr⟩
            · exact ⟨buildRecord doc p2 info cs, Or.inr rfl⟩
        rw [hmid]
        constructor
        · rintro ((h | rfl) | ⟨info2, cs2, hmem, hv2, hc2⟩)
          · exact Or.inl h
          · exact Or.inr ⟨info, cs, List.mem_cons_self _ _, hv, hc⟩
          · exact Or.inr ⟨info2, cs2, List.mem_cons_of_mem _ hmem, hv2, hc2⟩
        · rintro (h | ⟨info2, cs2, hmem, hv2, hc2⟩)
          · exact Or.inl (Or.inl h)
          · rcases List.mem_cons.1 hmem with heq | hmem2
            · exact Or.inl (Or.inr (congrArg Prod.fst heq))
            · exact Or.inr ⟨info2, cs2, hmem2, hv2, hc2⟩
      · intro hnd
        refine ih3 ?_
        have hpcn : pc ∉ st.2.map Prod.fst := by
          intro hmem
          obtain ⟨pr, hpr, hfst⟩ := List.mem_map.1 hmem
          rcases pr with ⟨a, b⟩
          have ha : a = pc := hfst
          subst ha
          exact hpc ((hInv a).2 ⟨b, hpr⟩)
        have hmapeq : ((st.2 ++ [(pc, buildRecord doc pc info cs)]).map
            Prod.fst) = st.2.map Prod.fst ++ [pc] := by simp
        rw [hmapeq]
        exact List.Nodup.append hnd (List.nodup_singleton pc)
          (fun a ha hb => hpcn ((List.mem_singleton.1 hb) ▸ ha))
      · intro p2 r hmem
        rcases ih4 p2 r hmem with h | ⟨info2, cs2, hmem2, hv2, hc2, hr⟩
        · rcases List.mem_append.1 h with h2 | h2
          · exact Or.inl h2
          · have heq := List.mem_singleton.1 h2
            have h3 : p2 = pc := congrArg Prod.fst heq
            have h4 : r = buildRecord doc pc info cs := congrArg Prod.snd heq
            subst h3
            exact Or.inr ⟨info, cs, List.mem_cons_self _ _, hv, hc, h4⟩
        · exact Or.inr ⟨info2, cs2, List.mem_cons_of_mem _ hmem2, hv2, hc2, hr⟩

theorem scanPairs_mem_iff (doc : DomForest) (p2 : List Nat) :
    (∃ r, (p2, r) ∈ scanPairs doc) ↔
      ∃ info cs, (p2, DomNode.elem info cs) ∈ allPotentialElements doc
        ∧ isVisible info = true
        ∧ ¬(info.id = "" ∧ computedTextOf doc p2 info cs = "") := by
  have h := (scan_fold doc (allPotentialElements doc) ([], [])
    (by simp)).2.1 p2
  simpa [scanPairs] using h

theorem scanPairs_nodup (doc : DomForest) :
    ((scanPairs doc).map Prod.fst).Nodup := by
  have h := (scan_fold doc (allPotentialElements doc) ([], [])
    (by simp)).2.2.1
  simpa [scanPairs] using h (by simp)

theorem scanPairs_shape (doc : DomForest) (p2 : List Nat)
    (r : ElementRecord) (hmem : (p2, r) ∈ scanPairs doc) :
    ∃ info cs, getInForest doc p2 = some (DomNode.elem info cs)
      ∧ (p2, DomNode.elem info cs) ∈ allPotentialElements doc
      ∧ matchesInteractive info = true
      ∧ isVisible info = true
      ∧ ¬(info.id = "" ∧ computedTextOf doc p2 info cs = "")
      ∧ r = buildRecord doc p2 info cs := by
  have h := (scan_fold doc (allPotentialElements doc) ([], [])
    (by simp)).2.2.2 p2 r (by simpa [scanPairs] using hmem)
  rcases h with h | ⟨info, cs, hmem2, hv, hc, hr⟩
  · simp at h
  · obtain ⟨hget, info2, cs2, heq, hmatch⟩ :=
      allPotentialElements_sound doc p2 _ hmem2
    obtain ⟨h1, h2⟩ := DomNode.elem.inj heq
    subst h1
    subst h2
    exact ⟨info, cs, hget, hmem2, hmatch, hv, hc, hr⟩

theorem DomForest.induction_list {motive : DomForest → Prop}
    (hnil : motive .nil)
    (hcons : ∀ hd tl, motive tl → motive (.cons hd tl)) :
    ∀ f, motive f :=
  @DomForest.rec (fun _ => True) motive
    (fun _ => trivial) (fun _ _ _ => trivial)
    hnil (fun hd tl _ iht => hcons hd tl iht)

theorem wfTagsF_get (f : DomForest) :
    ∀ (i : Nat) (n : DomNode), wfTagsF f = true → f.get? i = some n →
      wfTagsN n = true := by
  induction f using DomForest.induction_list with
  | hnil => intro i n _ h; simp [DomForest.get?] at h
  | hcons hd tl ihtl =>
    intro i n hwf hget
    have hwf2 : wfTagsN hd = true ∧ wfTagsF tl = true := by
      simpa [wfTagsF, Bool.and_eq_true] using hwf
    cases i with
    | zero =>
      simp only [DomForest.get?, Option.some.injEq] at hget
      exact hget ▸ hwf2.1
    | succ j =>
      simp only [DomForest.get?] at hget
      exact ihtl j n hwf2.2 hget

theorem wfTagsN_elem (info : ElemInfo) (cs : DomForest)
    (h : wfTagsN (.elem info cs) = true) :
    strLower info.tag = info.tag ∧ info.tag ≠ "#text" ∧ wfTagsF cs = true := by
  have h2 : (strLower info.tag = info.tag ∧ ¬info.tag = "#text")
      ∧ wfTagsF cs = true := by
    simpa [wfTagsN, Bool.and_eq_true, bne_iff_ne, beq_iff_eq] using h
  exact ⟨h2.1.1, h2.1.2, h2.2⟩

theorem wfTagsF_childrenOf (n : DomNode) (h : wfTagsN n = true) :
    wfTagsF (childrenOf n) = true := by
  cases n with
  | text s => rfl
  | elem info cs => exact (wfTagsN_elem info cs h).2.2

theorem wfTagsF_childrenAtPath (doc : DomForest) (p : List Nat)
    (hwf : wfTagsF doc = true) :
    wfTagsF (childrenAtPath doc p) = true := by
  induction p generalizing doc with
  | nil => exact hwf
  | cons i rest ih =>
    simp only [childrenAtPath]
    apply ih
    cases hget : doc.get? i with
    | none => rfl
    | some n => exact wfTagsF_childrenOf n (wfTagsF_get doc i n hwf hget)

theorem countPrevP_congr (f g : DomNode → Bool)
    (hfg : ∀ n, wfTagsN n = true → f n = g n) (sibs : DomForest) :
    ∀ i, wfTagsF sibs = true → countPrevP f sibs i = countPrevP g sibs i := by
  induction sibs using DomForest.induction_list with
  | hnil => intro i _; rfl
  | hcons hd tl ih =>
    intro i hwf
    have hwf2 : wfTagsN hd = true ∧ wfTagsF tl = true := by
      simpa [wfTagsF, Bool.and_eq_true] using hwf
    cases i with
    | zero => rfl
    | succ j =>
      simp only [countPrevP, hfg hd hwf2.1, ih j hwf2.2]

theorem anyP_congr (f g : DomNode → Bool)
    (hfg : ∀ n, wfTagsN n = true → f n = g n) (sibs : DomForest)
    (hwf : wfTagsF sibs = true) : anyP f sibs = anyP g sibs := by
  induction sibs using DomForest.induction_list with
  | hnil => rfl
  | hcons hd tl ih =>
    have hwf2 : wfTagsN hd = true ∧ wfTagsF tl = true := by
      simpa [wfTagsF, Bool.and_eq_true] using hwf
    simp only [anyP, hfg hd hwf2.1, ih hwf2.2]

theorem anyAfterP_congr (f g : DomNode → Bool)
    (hfg : ∀ n, wfTagsN n = true → f n = g n) (sibs : DomForest) :
    ∀ i, wfTagsF sibs = true → anyAfterP f sibs i = anyAfterP g sibs i := by
  induction sibs using DomForest.induction_list with
  | hnil => intro i _; rfl
  | hcons hd tl ih =>
    intro i hwf
    have hwf2 : wfTagsN hd = true ∧ wfTagsF tl = true := by
      simpa [wfTagsF, Bool.and_eq_true] using hwf
    cases i with
    | zero => exact anyP_congr f g hfg tl hwf2.2
    | succ j => exact ih j hwf2.2

theorem matchIdxsFrom_nil_of_none (t : String) (f : DomForest)
    (h : anyP (matchesNameTest t) f = false) :
    ∀ k, matchIdxsFrom t f k = [] := by
  induction f using DomForest.induction_list with
  | hnil => intro k; rfl
  | hcons hd tl ih =>
    intro k
    have h2 : matchesNameTest t hd = false
        ∧ anyP (matchesNameTest t) tl = false := by
      simpa [anyP] using h
    simp only [matchIdxsFrom, h2.1, ih h2.2, Bool.false_eq_true, if_false]

theorem matchIdxsFrom_getElem (t : String) (f : DomForest) :
    ∀ (i k : Nat) (n : DomNode), f.get? i = some n →
      matchesNameTest t n = true →
      (matchIdxsFrom t f k)[countPrevP (matchesNameTest t) f i]?
        = some (k + i) := by
  induction f using DomForest.induction_list with
  | hnil => intro i k n h; simp [DomForest.get?] at h
  | hcons hd tl ih =>
    intro i k n hget hmatch
    cases i with
    | zero =>
      simp only [DomForest.get?, Option.some.injEq] at hget
      subst hget
      simp [matchIdxsFrom, hmatch, countPrevP]
    | succ j =>
      simp only [DomForest.get?] at hget
      cases hhd : matchesNameTest t hd with
      | true =>
        simp only [matchIdxsFrom, hhd, if_true, countPrevP, hhd]
        rw [Nat.add_comm 1 (countPrevP (matchesNameTest t) tl j)]
        simp only [List.getElem?_cons_succ]
        have := ih j (k+1) n hget hmatch
        simpa [Nat.add_assoc, Nat.add_comm 1 j] using this
      | false =>
        simp only [matchIdxsFrom, hhd, Bool.false_eq_true, if_false,
          countPrevP, hhd]
        have := ih j (k+1) n hget hmatch
        simpa [Nat.add_assoc, Nat.add_comm 1 j] using this

theorem matchIdxsFrom_singleton (t : String) (f : DomForest) :
    ∀ (i k : Nat) (n : DomNode), f.get? i = some n →
      matchesNameTest t n = true →
      countPrevP (matchesNameTest t) f i = 0 →
      anyAfterP (matchesNameTest t) f i = false →
      matchIdxsFrom t f k = [k + i] := by
  induction f using DomForest.induction_list with
  | hnil => intro i k n h; simp [DomForest.get?] at h
  | hcons hd tl ih =>
    intro i k n hget hmatch hprev hafter
    cases i with
    | zero =>
      simp only [DomForest.get?, Option.some.injEq] at hget
      subst hget
      simp only [anyAfterP] at hafter
      simp [matchIdxsFrom, hmatch, matchIdxsFrom_nil_of_none t tl hafter]
    | succ j =>
      simp only [DomForest.get?] at hget
      simp only [anyAfterP] at hafter
      simp only [countPrevP] at hprev
      have hhd : matchesNameTest t hd = false := by
        cases hhd : matchesNameTest t hd with
        | false => rfl
        | true => simp [hhd] at hprev
      have hprev2 : countPrevP (matchesNameTest t) tl j = 0 := by
        simpa [hhd] using hprev
      simp only [matchIdxsFrom, hhd, Bool.false_eq_true, if_false]
      have := ih j (k+1) n hget hmatch hprev2 hafter
      rw [this]
      simp [Nat.add_assoc, Nat.add_comm 1 j]

theorem xseg_tag (sibs : DomForest) (i : Nat) (t : String) :
    (xseg sibs i t).tag = strLower t := by
  unfold xseg; split <;> rfl

theorem getInForest_nil (p : List Nat) :
    getInForest DomForest.nil p = none := by
  match p with
  | [] => rfl
  | [i] => rfl
  | i :: j :: rest => rfl

theorem childrenAtPath_append (q : List Nat) :
    ∀ (ns : DomForest) (r : List Nat),
      childrenAtPath ns (q ++ r) = childrenAtPath (childrenAtPath ns q) r := by
  induction q with
  | nil => intro ns r; rfl
  | cons i rest ih =>
    intro ns r
    simp only [List.cons_append, childrenAtPath]
    exact ih _ r

theorem validElemPath_of_get (p : List Nat) :
    ∀ (f : DomForest) (info : ElemInfo) (cs : DomForest),
      getInForest f p = some (DomNode.elem info cs) →
      validElemPath f p = true := by
  induction p with
  | nil => intro f info cs h; simp [getInForest] at h
  | cons i rest ih =>
    intro f info cs h
    cases rest with
    | nil =>
      simp only [getInForest] at h
      simp [validElemPath, h]
    | cons j rest2 =>
      simp only [getInForest] at h
      cases hget : f.get? i with
      | none => rw [hget] at h; simp at h
      | some n =>
        rw [hget] at h
        cases n with
        | text s =>
          have h2 : getInForest DomForest.nil (j :: rest2)
              = some (DomNode.elem info cs) := h
          rw [getInForest_nil] at h2
          simp at h2
        | elem info2 cs2 =>
          simp only [validElemPath, hget]
          exact ih (childrenOf (DomNode.elem info2 cs2)) info cs h

theorem xpathSegsIn_ne_nil (p : List Nat) :
    ∀ (f : DomForest), validElemPath f p = true → xpathSegsIn f p ≠ [] := by
  induction p with
  | nil => intro f h; simp [validElemPath] at h
  | cons i rest ih =>
    intro f h
    cases rest with
    | nil =>
      simp only [validElemPath] at h
      cases hget : f.get? i with
      | none => rw [hget] at h; simp at h
      | some n =>
        rw [hget] at h
        cases n with
        | text s => simp at h
        | elem info cs => simp [xpathSegsIn, hget]
    | cons j rest2 =>
      simp only [validElemPath] at h
      cases hget : f.get? i with
      | none => rw [hget] at h; simp at h
      | some n =>
        rw [hget] at h
        cases n with
        | text s => simp at h
        | elem info cs =>
          have hne := ih cs h
          simp only [xpathSegsIn, hget]
          rw [if_neg (by simpa [List.isEmpty_iff] using hne)]
          simp

theorem stepSeg_xseg (doc : DomForest) (base : List Nat) (sibs : DomForest)
    (i : Nat) (info : ElemInfo) (cs : DomForest)
    (hbase : childrenAtPath doc base = sibs)
    (hget : sibs.get? i = some (.elem info cs))
    (hwf : wfTagsF sibs = true) :
    stepSeg doc (xseg sibs i info.tag) base = [base ++ [i]] := by
  obtain ⟨hlow, hnt, _⟩ :=
    wfTagsN_elem info cs (wfTagsF_get sibs i _ hwf hget)
  have hmatch : matchesNameTest info.tag (DomNode.elem info cs) = true := by
    simp [matchesNameTest, hlow]
  have hcg1 : ∀ n, wfTagsN n = true →
      matchesNameTest info.tag n = isElemWithTag info.tag n := by
    intro n hn
    cases n with
    | text s => rfl
    | elem info2 cs2 =>
      have hl2 := (wfTagsN_elem info2 cs2 hn).1
      simp [matchesNameTest, isElemWithTag, hl2]
  have hcg2 : ∀ n, wfTagsN n = true →
      (fun m => nodeNameOf m == info.tag) n
        = matchesNameTest info.tag n := by
    intro n hn
    cases n with
    | text s =>
      simp only [nodeNameOf, matchesNameTest]
      exact beq_eq_false_iff_ne.2 (Ne.symm hnt)
    | elem info2 cs2 =>
      have hl2 := (wfTagsN_elem info2 cs2 hn).1
      simp [nodeNameOf, matchesNameTest, hl2]
  have hcount : countPrevP (matchesNameTest info.tag) sibs i
      = nbOfPreviousSiblings sibs i info.tag :=
    countPrevP_congr _ _ hcg1 sibs i hwf
  by_cases hcond : (nbOfPreviousSiblings sibs i info.tag != 0
      || hasNextSiblings sibs i info.tag) = true
  · have hseg : xseg sibs i info.tag
        = { tag := strLower info.tag
          , idx := some (nbOfPreviousSiblings sibs i info.tag + 1) } := by
      simp [xseg, hcond]
    rw [hseg]
    have hidx := matchIdxsFrom_getElem info.tag sibs i 0
      (DomNode.elem info cs) hget hmatch
    rw [hcount] at hidx
    simp only [stepSeg, hbase, hlow, Nat.add_sub_cancel]
    rw [hidx]
    simp
  · have hsplit : nbOfPreviousSiblings sibs i info.tag = 0
        ∧ hasNextSiblings sibs i info.tag = false := by
      constructor
      · by_contra hne
        exact hcond (by simp [bne_iff_ne, hne])
      · by_contra hne
        have : hasNextSiblings sibs i info.tag = true := by
          simpa using hne
        exact hcond (by simp [this])
    have hseg : xseg sibs i info.tag
        = { tag := strLower info.tag, idx := none } := by
      simp [xseg, hsplit.1, hsplit.2]
    rw [hseg]
    have hprev : countPrevP (matchesNameTest info.tag) sibs i = 0 := by
      rw [hcount]; exact hsplit.1
    have hafter : anyAfterP (matchesNameTest info.tag) sibs i = false := by
      have h1 : anyAfterP (fun m => nodeNameOf m == info.tag) sibs i
          = anyAfterP (matchesNameTest info.tag) sibs i :=
        anyAfterP_congr _ _ hcg2 sibs i hwf
      rw [← h1]
      exact hsplit.2
    have hsingle := matchIdxsFrom_singleton info.tag sibs i 0
      (DomNode.elem info cs) hget hmatch hprev hafter
    simp only [stepSeg, hbase, hlow]
    rw [hsingle]
    simp

theorem resolve_fold (doc : DomForest) (p : List Nat) :
    ∀ (sibs : DomForest) (base : List Nat),
      childrenAtPath doc base = sibs → validElemPath sibs p = true →
      wfTagsF sibs = true →
      List.foldl (fun ctxs s => ctxs.flatMap (stepSeg doc s)) [base]
        (xpathSegsIn sibs p) = [base ++ p] := by
  induction p with
  | nil => intro sibs base _ h _; simp [validElemPath] at h
  | cons i rest ih =>
    intro sibs base hbase hvalid hwf
    cases rest with
    | nil =>
      simp only [validElemPath] at hvalid
      cases hget : sibs.get? i with
      | none => rw [hget] at hvalid; simp at hvalid
      | some n =>
        rw [hget] at hvalid
        cases n with
        | text s => simp at hvalid
        | elem info cs =>
          simp only [xpathSegsIn, hget, List.foldl_cons, List.foldl_nil]
          rw [show [base].flatMap (stepSeg doc (xseg sibs i info.tag))
              = stepSeg doc (xseg sibs i info.tag) base from by simp]
          rw [stepSeg_xseg doc base sibs i info cs hbase hget hwf]
    | cons j rest2 =>
      simp only [validElemPath] at hvalid
      cases hget : sibs.get? i with
      | none => rw [hget] at hvalid; simp at hvalid
      | some n =>
        rw [hget] at hvalid
        cases n with
        | text s => simp at hvalid
        | elem info cs =>
          have hvalid2 : validElemPath cs (j :: rest2) = true := hvalid
          have hne := xpathSegsIn_ne_nil (j :: rest2) cs hvalid2
          simp only [xpathSegsIn, hget]
          rw [if_neg (by simpa [List.isEmpty_iff] using hne)]
          simp only [List.foldl_cons]
          rw [show [base].flatMap (stepSeg doc (xseg sibs i info.tag))
              = stepSeg doc (xseg sibs i info.tag) base from by simp]
          rw [stepSeg_xseg doc base sibs i info cs hbase hget hwf]
          have hbase2 : childrenAtPath doc (base ++ [i]) = cs := by
            rw [childrenAtPath_append, hbase]
            simp [childrenAtPath, hget, childrenOf]
          have hwf2 : wfTagsF cs = true :=
            (wfTagsN_elem info cs (wfTagsF_get sibs i _ hwf hget)).2.2
          rw [ih cs (base ++ [i]) hbase2 hvalid2 hwf2]
          simp

theorem countPrevP_bne_anyBeforeP (f : DomNode → Bool) (sibs : DomForest) :
    ∀ i, (countPrevP f sibs i != 0) = anyBeforeP f sibs i := by
  induction sibs using DomForest.induction_list with
  | hnil => intro i; rfl
  | hcons hd tl ih =>
    intro i
    cases i with
    | zero => rfl
    | succ j =>
      cases hhd : f hd with
      | true => simp [countPrevP, anyBeforeP, hhd]
      | false => simp [countPrevP, anyBeforeP, hhd, ih j]

theorem xseg_eq_specSeg (sibs : DomForest) (i : Nat) (info : ElemInfo)
    (cs : DomForest) (hget : sibs.get? i = some (.elem info cs))
    (hwf : wfTagsF sibs = true) :
    xseg sibs i info.tag = specSeg sibs i info.tag := by
  obtain ⟨hlow, hnt, _⟩ :=
    wfTagsN_elem info cs (wfTagsF_get sibs i _ hwf hget)
  have hcg : ∀ n, wfTagsN n = true →
      (fun m => nodeNameOf m == info.tag) n
        = (fun m => isElemWithTag info.tag m) n := by
    intro n hn
    cases n with
    | text s =>
      simp only [nodeNameOf, isElemWithTag]
      exact beq_eq_false_iff_ne.2 (Ne.symm hnt)
    | elem info2 cs2 => rfl
  have hnext : hasNextSiblings sibs i info.tag
      = anyAfterP (fun m => isElemWithTag info.tag m) sibs i :=
    anyAfterP_congr _ _ hcg sibs i hwf
  have hprev : (nbOfPreviousSiblings sibs i info.tag != 0)
      = anyBeforeP (fun m => isElemWithTag info.tag m) sibs i :=
    countPrevP_bne_anyBeforeP _ sibs i
  unfold xseg specSeg
  rw [hnext, hprev]
  rfl

theorem xpathSegsIn_eq_specSegsIn (p : List Nat) :
    ∀ (sibs : DomForest), wfTagsF sibs = true →
      xpathSegsIn sibs p = specSegsIn sibs p := by
  induction p with
  | nil => intro sibs _; rfl
  | cons i rest ih =>
    intro sibs hwf
    cases rest with
    | nil =>
      cases hget : sibs.get? i with
      | none => simp [xpathSegsIn, specSegsIn, hget]
      | some n =>
        cases n with
        | text s => simp [xpathSegsIn, specSegsIn, hget]
        | elem info cs =>
          simp only [xpathSegsIn, specSegsIn, hget]
          rw [xseg_eq_specSeg sibs i info cs hget hwf]
    | cons j rest2 =>
      cases hget : sibs.get? i with
      | none => simp [xpathSegsIn, specSegsIn, hget]
      | some n =>
        cases n with
        | text s => simp [xpathSegsIn, specSegsIn, hget]
        | elem info cs =>
          have hwf2 : wfTagsF cs = true :=
            (wfTagsN_elem info cs (wfTagsF_get sibs i _ hwf hget)).2.2
          simp only [xpathSegsIn, specSegsIn, hget]
          rw [xseg_eq_specSeg sibs i info cs hget hwf, ih cs hwf2]

theorem getXPathForElement_isSome (doc : DomForest) (p : List Nat)
    (info : ElemInfo) (cs : DomForest)
    (hget : getInForest doc p = some (DomNode.elem info cs)) :
    getXPathForElement doc p ≠ none := by
  by_cases hid : info.id = ""
  · have hvalid := validElemPath_of_get p doc info cs hget
    have hne := xpathSegsIn_ne_nil p doc hvalid
    have hne2 : ((xpathSegsIn doc p).map XSeg.render).isEmpty = false := by
      simp [List.isEmpty_iff, hne]
    simp [getXPathForElement, hget, hid, hne2]
  · simp [getXPathForElement, hget, hid]

/-! ### The claims -/

/-- C1: for every node matching the fixed selector set, the node contributes
an ElementRecord to the output if and only if it passes the visibility
filter (nonzero bounding box, offset parent present, visibility not hidden,
display not none) and has a non-empty id or a non-empty computedText. -/
theorem c1_output_iff (doc : DomForest) (p : List Nat) (info : ElemInfo)
    (cs : DomForest)
    (hmem : (p, DomNode.elem info cs) ∈ allPotentialElements doc) :
    (∃ r, (p, r) ∈ scanPairs doc) ↔
      (isVisible info = true
        ∧ (info.id ≠ "" ∨ computedTextOf doc p info cs ≠ "")) := by
  rw [scanPairs_mem_iff doc p]
  constructor
  · rintro ⟨info2, cs2, hmem2, hv2, hc2⟩
    have h1 := (allPotentialElements_sound doc p _ hmem).1
    have h2 := (allPotentialElements_sound doc p _ hmem2).1
    rw [h1] at h2
    obtain ⟨h3, h4⟩ := DomNode.elem.inj (Option.some.inj h2)
    subst h3
    subst h4
    exact ⟨hv2, by tauto⟩
  · rintro ⟨hv, hc⟩
    exact ⟨info, cs, hmem, hv, by tauto⟩

/-- C1 witness: a visible button with text `Go` is in the candidate stream
of `exDoc1` and the equivalence holds for it (both sides true). -/
theorem c1_output_iff_witness :
    (([0,0,0], DomNode.elem (mkInfo "button") (.ofList [tx "Go"]))
        ∈ allPotentialElements exDoc1)
    ∧ ((∃ r, ([0,0,0], r) ∈ scanPairs exDoc1) ↔
        (isVisible (mkInfo "button") = true
          ∧ ((mkInfo "button").id ≠ ""
            ∨ computedTextOf exDoc1 [0,0,0] (mkInfo "button")
                (.ofList [tx "Go"]) ≠ ""))) := by
  have hmem : ([0,0,0], DomNode.elem (mkInfo "button") (.ofList [tx "Go"]))
      ∈ allPotentialElements exDoc1 := by
    have h : allPotentialElements exDoc1
        = [([0,0,0], DomNode.elem (mkInfo "button") (.ofList [tx "Go"]))] :=
      rfl
    rw [h]
    exact List.mem_singleton.2 rfl
  exact ⟨hmem, c1_output_iff exDoc1 [0,0,0] (mkInfo "button")
    (.ofList [tx "Go"]) hmem⟩

/-- C2: for every element without a non-empty id, the synthesizer emits at
each level of the walk the segments described by the claim (indexed
`tag[k]`, `k` = 1 + number of preceding same-tag element siblings, exactly
when some preceding or following sibling shares the tag name; a bare tag
otherwise); the segments joined root-to-leaf with `/` and a leading `/`
form the returned string, and re-evaluating them as an XPath against the
same tree resolves to exactly the original element.  Stated for documents
whose element tag names are canonical (lower case and distinct from the
text-node name `#text`), as in a real HTML DOM. -/
theorem c2_xpath_roundtrip (doc : DomForest) (p : List Nat)
    (info : ElemInfo) (cs : DomForest) (hwf : wfTagsF doc = true)
    (hget : getInForest doc p = some (DomNode.elem info cs))
    (hid : info.id = "") :
    getXPathForElement doc p
      = some ("/" ++ joinSlash ((xpathSegsIn doc p).map XSeg.render))
    ∧ xpathSegsIn doc p = specSegsIn doc p
    ∧ resolveXPath doc (xpathSegsIn doc p) = [p] := by
  have hvalid := validElemPath_of_get p doc info cs hget
  have hne := xpathSegsIn_ne_nil p doc hvalid
  refine ⟨?_, xpathSegsIn_eq_specSegsIn p doc hwf, ?_⟩
  · have hne2 : ((xpathSegsIn doc p).map XSeg.render).isEmpty = false := by
      simp [List.isEmpty_iff, hne]
    simp [getXPathForElement, hget, hid, hne2]
  · unfold resolveXPath
    have h := resolve_fold doc p doc [] rfl hvalid hwf
    simpa using h

/-- C2 witness: in `exDoc2`, the second of two div siblings (no id) gets
the path `/html/body/div[2]`, which resolves back to exactly that node. -/
theorem c2_xpath_roundtrip_witness :
    wfTagsF exDoc2 = true
    ∧ getXPathForElement exDoc2 [0,0,2] = some "/html/body/div[2]"
    ∧ resolveXPath exDoc2 (xpathSegsIn exDoc2 [0,0,2]) = [[0,0,2]] := by
  have h := c2_xpath_roundtrip exDoc2 [0,0,2] (mkInfo "div") (.ofList [])
    (by decide) rfl rfl
  exact ⟨by decide, by decide, h.2.2⟩

/-- C3 counterexample: in `exDoc3` an anchor has whitespace-only text
content and `name="anchor1"`.  The claim (first non-empty source in
priority order, then normalized) picks the whitespace text and yields "",
but the script trims the text first, falls through to the name attribute
and emits `computedText = "anchor1"`. -/
theorem c3_counterexample :
    (elementDetails exDoc3).map (fun r => r.text.computedText) = ["anchor1"]
    ∧ specComputedTextClaim exDoc3 [0,0,0] exInfo3 (.ofList [tx " "]) = ""
    ∧ getInForest exDoc3 [0,0,0]
        = some (DomNode.elem exInfo3 (.ofList [tx " "])) := by
  refine ⟨by decide, by decide, rfl⟩

/-- C3 amended: `computedText` equals the first non-empty candidate in the
priority order aria-label, `label[for=id]` text, enclosing-label text, own
text content, own value, placeholder, name — where the label texts, the own
text content and the own value are trimmed before the non-emptiness test
(whitespace-only candidates are skipped) while aria-label, placeholder and
name are tested raw — with the selected result whitespace-normalized.  In
particular an element with `aria-label="Submit Now"` and visible text `Go`
gets `computedText = "Submit Now"`. -/
theorem c3_amended :
    (∀ (doc : DomForest) (p : List Nat) (info : ElemInfo) (cs : DomForest),
      computedTextOf doc p info cs = specComputedTextAmended doc p info cs)
    ∧ (elementDetails exDoc3w).map (fun r => r.text.computedText)
        = ["Submit Now"] := by
  constructor
  · intro doc p info cs
    unfold computedTextOf specComputedTextAmended visibleTextOf
    rw [labelTextOf_eq, valueTextOf_eq]
    simp only [firstNonEmpty_cons]
    simp only [show firstNonEmpty [] = "" from rfl]
    rw [jsOr_assoc, jsOr_assoc]
  · decide

/-- C4 counterexample: in `exDoc4` a visible input with `id="field7"` and
no text source of any kind survives (it has an id) and its record carries
`computedText = ""`, refuting that computedText is non-empty for every
surviving record. -/
theorem c4_counterexample :
    (elementDetails exDoc4).map
      (fun r => (r.attributes.id, r.text.computedText))
      = [(some "field7", "")] := by decide

/-- C4 amended: every record in the output has a non-empty id or a
non-empty computedText; in particular `computedText` is non-empty for every
record whose id attribute is null. -/
theorem c4_amended (doc : DomForest) (p : List Nat) (r : ElementRecord)
    (hmem : (p, r) ∈ scanPairs doc) :
    (r.attributes.id ≠ none ∨ r.text.computedText ≠ "")
    ∧ (r.attributes.id = none → r.text.computedText ≠ "") := by
  obtain ⟨info, cs, _, _, _, _, hc, hr⟩ := scanPairs_shape doc p r hmem
  subst hr
  have hid : (buildRecord doc p info cs).attributes.id = strOrNull info.id :=
    rfl
  have hct : (buildRecord doc p info cs).text.computedText
      = computedTextOf doc p info cs := rfl
  by_cases h : info.id = ""
  · have hc2 : computedTextOf doc p info cs ≠ "" := fun he => hc ⟨h, he⟩
    exact ⟨Or.inr (by rw [hct]; exact hc2), fun _ => by rw [hct]; exact hc2⟩
  · have hsome : strOrNull info.id = some info.id := by simp [strOrNull, h]
    refine ⟨Or.inl (by rw [hid, hsome]; simp), fun hnone => ?_⟩
    rw [hid, hsome] at hnone
    simp at hnone

/-- C4 amended witness: the id-less button of `exDoc4w` has non-empty
computedText `Save`. -/
theorem c4_amended_witness :
    (buildRecord exDoc4w [0,0,0] (mkInfo "button")
      (.ofList [tx "Save"])).text.computedText ≠ "" := by
  have hmem : ([0,0,0], buildRecord exDoc4w [0,0,0] (mkInfo "button")
      (.ofList [tx "Save"])) ∈ scanPairs exDoc4w := by
    have h : scanPairs exDoc4w = [([0,0,0], buildRecord exDoc4w [0,0,0]
        (mkInfo "button") (.ofList [tx "Save"]))] := rfl
    rw [h]
    exact List.mem_singleton.2 rfl
  exact (c4_amended exDoc4w [0,0,0] _ hmem).2 (by decide)

/-- C5: no DOM node is represented by more than one ElementRecord in a
single scan's output: the source paths of the emitted records are pairwise
distinct (the identity-keyed `processedElements` set is scoped to the
run). -/
theorem c5_no_duplicate_nodes (doc : DomForest) :
    ((scanPairs doc).map Prod.fst).Nodup :=
  scanPairs_nodup doc

/-- C6: serializing the full record sequence (dropping `undefined`-valued
keys, as `JSON.stringify` does) and re-parsing it reproduces records
field-for-field identical to the in-memory records; all five state fields
are present in every record, holding the host's default (`false` or
`undefined`, read back as `undefined` when dropped) where irrelevant. -/
theorem c6_serialization_roundtrip (rs : List ElementRecord) :
    parseRecords (recordsToJson rs) = some rs := by
  simp [parseRecords, recordsToJson, parseRecordList_roundtrip]

/-- C7: for every element with a non-empty id, `getXPathForElement` returns
exactly the id shortcut with the raw id interpolated between single
quotes, without verifying document-wide id uniqueness. -/
theorem c7_id_shortcut (doc : DomForest) (p : List Nat) (info : ElemInfo)
    (cs : DomForest)
    (hget : getInForest doc p = some (DomNode.elem info cs))
    (hid : info.id ≠ "") :
    getXPathForElement doc p
      = some ("//*[@id=" ++ sQuote ++ info.id ++ sQuote ++ "]") := by
  simp [getXPathForElement, hget, hid]

/-- C7 witness: the element with id `submit-btn` yields the xpath
`//*[@id='submit-btn']`. -/
theorem c7_id_shortcut_witness :
    getXPathForElement exDoc7 [0,0,0]
      = some ("//*[@id=" ++ sQuote ++ "submit-btn" ++ sQuote ++ "]") :=
  c7_id_shortcut exDoc7 [0,0,0] (mkInfo "button" "submit-btn")
    (.ofList [tx "Go"]) rfl (by decide)

/-- C8: every emitted record describes an element node of the document, and
its xpath is non-null; `getXPathForElement` returns null only when the walk
accumulated zero segments, which never happens when the addressed node is
an element. -/
theorem c8_xpath_not_null (doc : DomForest) (p : List Nat)
    (r : ElementRecord) :
    ((p, r) ∈ scanPairs doc → r.xpath ≠ none)
    ∧ (getXPathForElement doc p = none →
        xpathSegsIn doc p = []
          ∧ ∀ info cs, getInForest doc p ≠ some (DomNode.elem info cs)) := by
  constructor
  · intro hmem
    obtain ⟨info, cs, hget, _, _, _, _, hr⟩ := scanPairs_shape doc p r hmem
    subst hr
    have hx : (buildRecord doc p info cs).xpath = getXPathForElement doc p :=
      rfl
    rw [hx]
    exact getXPathForElement_isSome doc p info cs hget
  · intro hnone
    have hsegs : xpathSegsIn doc p = [] := by
      by_contra hne
      have hne2 : ((xpathSegsIn doc p).map XSeg.render).isEmpty = false := by
        simp [List.isEmpty_iff, hne]
      by_cases hcase : (match getInForest doc p with
          | some (.elem info _) => info.id
          | _ => "") = ""
      · simp [getXPathForElement, hcase, hne2] at hnone
      · simp [getXPathForElement, hcase] at hnone
    refine ⟨hsegs, fun info cs hget => ?_⟩
    exact getXPathForElement_isSome doc p info cs hget hnone

/-- C8 witness: the id-less anchor of `exDoc8` is emitted with the
non-null xpath `/html/body/a`. -/
theorem c8_xpath_not_null_witness :
    (buildRecord exDoc8 [0,0,0] exInfo8 (.ofList [tx "Home"])).xpath
      ≠ none := by
  have hmem : ([0,0,0], buildRecord exDoc8 [0,0,0] exInfo8
      (.ofList [tx "Home"])) ∈ scanPairs exDoc8 := by
    have h : scanPairs exDoc8 = [([0,0,0], buildRecord exDoc8 [0,0,0]
        exInfo8 (.ofList [tx "Home"]))] := rfl
    rw [h]
    exact List.mem_singleton.2 rfl
  exact (c8_xpath_not_null exDoc8 [0,0,0] _).1 hmem

/-- C9: a visible checkbox input with id `agree`, no label, aria-label
`I agree` and checked state true is emitted with `attributes.type` equal to
`checkbox`, `state.isChecked` true (the host boolean property), and
`text.computedText` equal to `I agree`. -/
theorem c9_checkbox_scenario :
    (elementDetails exDoc9).map
      (fun r => (r.attributes.type, r.state.isChecked, r.text.computedText))
      = [(some "checkbox", some true, "I agree")] := by decide

/-- C10: `attributes.type` is non-null only for records whose tag is
`input`, in which case it equals the host's resolved `type` property;
records of all other elements (select, textarea, button, …) have
`attributes.type` null. -/
theorem c10_type_only_for_inputs (doc : DomForest) (p : List Nat)
    (r : ElementRecord) (hmem : (p, r) ∈ scanPairs doc) :
    (r.tagName ≠ "input" → r.attributes.type = none)
    ∧ (r.tagName = "input" →
        ∃ info cs, getInForest doc p = some (DomNode.elem info cs)
          ∧ r.attributes.type = some info.typeProp) := by
  obtain ⟨info, cs, hget, _, _, _, _, hr⟩ := scanPairs_shape doc p r hmem
  subst hr
  have htag : (buildRecord doc p info cs).tagName = strLower info.tag := rfl
  have hty : (buildRecord doc p info cs).attributes.type
      = (if strLower info.tag == "input" then some info.typeProp else none) :=
    rfl
  constructor
  · intro hne
    rw [htag] at hne
    rw [hty]
    simp [beq_eq_false_iff_ne.2 hne]
  · intro heq
    rw [htag] at heq
    exact ⟨info, cs, hget, by rw [hty]; simp [heq]⟩

/-- C10 witness: in `exDoc10` the select's record has null type while the
text input's record has type `text`. -/
theorem c10_type_only_for_inputs_witness :
    (buildRecord exDoc10 [0,0,0] exInfo10s DomForest.nil).attributes.type
        = none
    ∧ (buildRecord exDoc10 [0,0,1] exInfo10i DomForest.nil).attributes.type
        = some "text" := by
  have h : scanPairs exDoc10
      = [([0,0,0], buildRecord exDoc10 [0,0,0] exInfo10s DomForest.nil),
         ([0,0,1], buildRecord exDoc10 [0,0,1] exInfo10i DomForest.nil)] :=
    rfl
  have hm1 : ([0,0,0], buildRecord exDoc10 [0,0,0] exInfo10s DomForest.nil)
      ∈ scanPairs exDoc10 := by
    rw [h]; exact List.mem_cons_self _ _
  have hm2 : ([0,0,1], buildRecord exDoc10 [0,0,1] exInfo10i DomForest.nil)
      ∈ scanPairs exDoc10 := by
    rw [h]; exact List.mem_cons_of_mem _ (List.mem_singleton.2 rfl)
  constructor
  · exact (c10_type_only_for_inputs exDoc10 [0,0,0] _ hm1).1 (by decide)
  · obtain ⟨info, cs, hg, hty⟩ :=
      (c10_type_only_for_inputs exDoc10 [0,0,1] _ hm2).2 (by decide)
    have he : DomNode.elem exInfo10i DomForest.nil = DomNode.elem info cs :=
      Option.some.inj ((show getInForest exDoc10 [0,0,1]
        = some (DomNode.elem exInfo10i DomForest.nil) from rfl).symm.trans hg)
    obtain ⟨h1, h2⟩ := DomNode.elem.inj he
    rw [hty, ← h1]
    rfl
